import Mathlib

/-!
Verification of the quint effect-inference core and built-in evaluator
operators against their natural-language specification.

The definitions below are shallow embeddings of the TypeScript source:
the effect algebra and unification kernel (effects base module), the
effect inferrer (visitor over the IR), and the integer/list built-in
operators of the evaluator.  Helper modules that the repository uses but
whose sources are not available here (simplification, printing,
substitutions, error trees, the lookup facility) are modelled from the
specification and are marked as such in their doc comments.

The source's recursive types nest lists inside inductives; to keep every
definition executable and kernel-reducible under Lean 4.14, those nested
lists are represented by mutually inductive list types (VarsList,
EffectList, QuintExList) with conversions to ordinary lists, and every
recursive function is structurally recursive (with an explicit fuel
counter where the source's recursion is not structurally bounded).
-/

namespace Quint

/-! ## Evaluator values and errors -/

/-- Runtime error of the evaluator: an error code and a message,
mirroring the QuintError interface. -/
structure QuintError where
  code : String
  message : String
deriving DecidableEq, Repr

/-- Embedding of the `ipow` builtin: `0^0` and negative exponents are
QNT503 errors, otherwise exact integer exponentiation (TypeScript
bigints are exact, so `Int` is the faithful carrier). -/
def ipow (base exp : Int) : Except QuintError Int :=
  if base = 0 ∧ exp = 0 then
    .error ⟨"QNT503", "0^0 is undefined"⟩
  else if exp < 0 then
    .error ⟨"QNT503", "i^j is undefined for j < 0"⟩
  else
    .ok (base ^ exp.toNat)

/-- Embedding of `getListElem`: guarded 0-based list access returning a
QNT510 out-of-bounds error outside `[0, size)`.  The inner `match`
mirrors the source's truthiness check on the fetched element. -/
def getListElem {α : Type} (list : List α) (idx : Int) : Except QuintError α :=
  if idx ≥ 0 ∧ idx < (list.length : Int) then
    match list.get? idx.toNat with
    | some elem => .ok elem
    | none => .error ⟨"QNT510", "Out of bounds, nth(" ++ toString idx ++ ")"⟩
  else .error ⟨"QNT510", "Out of bounds, nth(" ++ toString idx ++ ")"⟩

/-- Embedding of the `nth` builtin: 0-based list indexing. -/
def nthOp {α : Type} (list : List α) (idx : Int) : Except QuintError α :=
  getListElem list idx

/-- Embedding of the `item` builtin: 1-based tuple/list indexing,
implemented as `getListElem` at index `i - 1`. -/
def itemOp {α : Type} (list : List α) (idx : Int) : Except QuintError α :=
  getListElem list (idx - 1)

/-! ## Effect algebra data model (effects base module) -/

/-- Kind of an effect component: read, update or temporal. -/
inductive ComponentKind where
  | read
  | update
  | temporal
deriving DecidableEq, Repr

/-- A named state variable with a back-reference id (ids are for
diagnostics only; equality of state variables is by name). -/
structure StateVariable where
  name : String
  reference : Int
deriving DecidableEq, Repr

mutual

/-- The variables an effect acts upon: a concrete list of state
variables, a quantification variable, or a union to be collapsed during
simplification.  The optional reference on quantified variables is
dropped, as no claim consults it. -/
inductive Variables where
  | concrete (vars : List StateVariable)
  | quantified (name : String)
  | union (vs : VarsList)

/-- List of Variables, mutually inductive with Variables so that
recursion over unions is structural. -/
inductive VarsList where
  | nil
  | cons (head : Variables) (tail : VarsList)

end

/-- Convert a VarsList to an ordinary list. -/
def VarsList.toList : VarsList → List Variables
  | .nil => []
  | .cons h t => h :: t.toList

/-- Build a VarsList from an ordinary list. -/
def VarsList.ofList : List Variables → VarsList
  | [] => .nil
  | h :: t => .cons h (VarsList.ofList t)

mutual

/-- Decidable equality for Variables (hand-written: deriving does not
handle the mutual nesting). -/
def Variables.deq : (a b : Variables) → Decidable (a = b)
  | .concrete v1, .concrete v2 =>
    match decEq v1 v2 with
    | isTrue h => isTrue (by rw [h])
    | isFalse h => isFalse (by intro hc; cases hc; exact h rfl)
  | .quantified n1, .quantified n2 =>
    match decEq n1 n2 with
    | isTrue h => isTrue (by rw [h])
    | isFalse h => isFalse (by intro hc; cases hc; exact h rfl)
  | .union l1, .union l2 =>
    match VarsList.deq l1 l2 with
    | isTrue h => isTrue (by rw [h])
    | isFalse h => isFalse (by intro hc; cases hc; exact h rfl)
  | .concrete _, .quantified _ => isFalse (by intro h; cases h)
  | .concrete _, .union _ => isFalse (by intro h; cases h)
  | .quantified _, .concrete _ => isFalse (by intro h; cases h)
  | .quantified _, .union _ => isFalse (by intro h; cases h)
  | .union _, .concrete _ => isFalse (by intro h; cases h)
  | .union _, .quantified _ => isFalse (by intro h; cases h)

/-- Decidable equality for VarsList. -/
def VarsList.deq : (a b : VarsList) → Decidable (a = b)
  | .nil, .nil => isTrue rfl
  | .nil, .cons _ _ => isFalse (by intro h; cases h)
  | .cons _ _, .nil => isFalse (by intro h; cases h)
  | .cons x xs, .cons y ys =>
    match Variables.deq x y, VarsList.deq xs ys with
    | isTrue h1, isTrue h2 => isTrue (by rw [h1, h2])
    | isFalse h1, _ => isFalse (by intro hc; cases hc; exact h1 rfl)
    | _, isFalse h2 => isFalse (by intro hc; cases hc; exact h2 rfl)

end

instance : DecidableEq Variables := Variables.deq

instance : DecidableEq VarsList := VarsList.deq

/-- One (kind, variables) pair inside a concrete effect.  The source's
field name for the variables is a reserved word in Lean, so it is
`vars` here. -/
structure EffectComponent where
  kind : ComponentKind
  vars : Variables
deriving DecidableEq

mutual

/-- The effect of an expression: concrete components, an arrow for
parameterized effects, or a quantified effect variable. -/
inductive Effect where
  | concrete (components : List EffectComponent)
  | arrow (params : EffectList) (result : Effect)
  | quantified (name : String)

/-- List of Effects, mutually inductive with Effect so that recursion
over arrow parameters is structural. -/
inductive EffectList where
  | nil
  | cons (head : Effect) (tail : EffectList)

end

/-- Convert an EffectList to an ordinary list. -/
def EffectList.toList : EffectList → List Effect
  | .nil => []
  | .cons h t => h :: t.toList

/-- Build an EffectList from an ordinary list. -/
def EffectList.ofList : List Effect → EffectList
  | [] => .nil
  | h :: t => .cons h (EffectList.ofList t)

mutual

/-- Decidable equality for Effect (hand-written: deriving does not
handle the mutual nesting). -/
def Effect.deq : (a b : Effect) → Decidable (a = b)
  | .concrete c1, .concrete c2 =>
    match decEq c1 c2 with
    | isTrue h => isTrue (by rw [h])
    | isFalse h => isFalse (by intro hc; cases hc; exact h rfl)
  | .quantified n1, .quantified n2 =>
    match decEq n1 n2 with
    | isTrue h => isTrue (by rw [h])
    | isFalse h => isFalse (by intro hc; cases hc; exact h rfl)
  | .arrow p1 r1, .arrow p2 r2 =>
    match EffectList.deq p1 p2, Effect.deq r1 r2 with
    | isTrue h1, isTrue h2 => isTrue (by rw [h1, h2])
    | isFalse h1, _ => isFalse (by intro hc; cases hc; exact h1 rfl)
    | _, isFalse h2 => isFalse (by intro hc; cases hc; exact h2 rfl)
  | .concrete _, .quantified _ => isFalse (by intro h; cases h)
  | .concrete _, .arrow _ _ => isFalse (by intro h; cases h)
  | .quantified _, .concrete _ => isFalse (by intro h; cases h)
  | .quantified _, .arrow _ _ => isFalse (by intro h; cases h)
  | .arrow _ _, .concrete _ => isFalse (by intro h; cases h)
  | .arrow _ _, .quantified _ => isFalse (by intro h; cases h)

/-- Decidable equality for EffectList. -/
def EffectList.deq : (a b : EffectList) → Decidable (a = b)
  | .nil, .nil => isTrue rfl
  | .nil, .cons _ _ => isFalse (by intro h; cases h)
  | .cons _ _, .nil => isFalse (by intro h; cases h)
  | .cons x xs, .cons y ys =>
    match Effect.deq x y, EffectList.deq xs ys with
    | isTrue h1, isTrue h2 => isTrue (by rw [h1, h2])
    | isFalse h1, _ => isFalse (by intro hc; cases hc; exact h1 rfl)
    | _, isFalse h2 => isFalse (by intro hc; cases hc; exact h2 rfl)

end

instance : DecidableEq Effect := Effect.deq

instance : DecidableEq EffectList := EffectList.deq

/-- Kind tag of a quantified name: effect-level or variable-set-level. -/
inductive NameKind where
  | effectK
  | variableK
deriving DecidableEq, Repr

/-- A quantified name that can refer either to an effect or a variable
(the source's Name interface). -/
structure QName where
  kind : NameKind
  name : String
deriving DecidableEq, Repr

/-- The empty set of variables. -/
def emptyVariables : Variables := .concrete []

/-- A single substitution binding, tagged by the kind of its value
(effect variable or variable-set variable). -/
inductive Subst where
  | effectS (name : String) (value : Effect)
  | variableS (name : String) (value : Variables)
deriving DecidableEq

/-- An ordered sequence of bindings. -/
abbrev Substitutions := List Subst

/-- Tree-structured error: a location frame, a message and child
errors. -/
inductive ErrorTree where
  | node (location : String) (message : String) (children : List ErrorTree)

/-- The message stored at the root of an error tree. -/
def ErrorTree.message : ErrorTree → String
  | .node _ m _ => m

/-- An error leaf: location and message with no children. -/
def buildErrorLeaf (location message : String) : ErrorTree :=
  .node location message []

/-- Wrap a single child error with a context frame.  Modelled from the
spec: the error-tree module is not under src/; trees are built by
wrapping a child error with a context frame. -/
def buildErrorTreeOne (location : String) (err : ErrorTree) : ErrorTree :=
  .node location "" [err]

/-- Wrap a list of child errors with a context frame.  Modelled from
the spec: the error-tree module is not under src/. -/
def buildErrorTreeMany (location : String) (errs : List ErrorTree) : ErrorTree :=
  .node location "" errs

/-- Collect a list of fallible results, gathering all errors (the
sweet-monads mergeInMany combinator). -/
def mergeInMany {α : Type} (xs : List (Except ErrorTree α)) : Except (List ErrorTree) (List α) :=
  let errs := xs.filterMap fun x => match x with | .error e => some e | .ok _ => none
  if errs.isEmpty then
    .ok (xs.filterMap fun x => match x with | .ok a => some a | .error _ => none)
  else .error errs

/-! ## Printing (modelled) -/

/-- Lexicographic comparison of character lists by code point. -/
def strLeAux : List Char → List Char → Bool
  | [], _ => true
  | _ :: _, [] => false
  | a :: as, b :: bs =>
    if a.toNat < b.toNat then true
    else if b.toNat < a.toNat then false
    else strLeAux as bs

/-- Lexicographic order on strings, by code point (an executable stand-in
for the library order, which does not reduce in the kernel). -/
def strLe (a b : String) : Bool := strLeAux a.data b.data

/-- Insert an element into a sorted list. -/
def insertSorted {α : Type} (le : α → α → Bool) (x : α) : List α → List α
  | [] => [x]
  | y :: ys => if le x y then x :: y :: ys else y :: insertSorted le x ys

/-- Insertion sort with respect to a boolean order. -/
def sortBy {α : Type} (le : α → α → Bool) : List α → List α
  | [] => []
  | x :: xs => insertSorted le x (sortBy le xs)

/-- Capitalized kind name, used by the canonical printer. -/
def kindStr : ComponentKind → String
  | .read => "Read"
  | .update => "Update"
  | .temporal => "Temporal"

/-- Lowercase kind name, as the source writes kinds in messages. -/
def kindLower : ComponentKind → String
  | .read => "read"
  | .update => "update"
  | .temporal => "temporal"

/-- Fixed order on component kinds for canonical printing. -/
def kindIdx : ComponentKind → Nat
  | .read => 0
  | .update => 1
  | .temporal => 2

mutual

/-- Modelled from the spec: the printing module is not under src/.  A
stable canonical string for variables: state-variable names sorted
lexicographically, quantified names printed as themselves, unions
joined in sorted order. -/
def varsToString : Variables → String
  | .concrete vs => String.intercalate ", " (sortBy strLe (vs.map (·.name)))
  | .quantified n => n
  | .union vs => String.intercalate " + " (sortBy strLe (varsToStringList vs))

/-- Printed forms of the members of a VarsList. -/
def varsToStringList : VarsList → List String
  | .nil => []
  | .cons h t => varsToString h :: varsToStringList t

end

/-- Modelled from the spec: canonical string of one component. -/
def effectComponentToString (c : EffectComponent) : String :=
  kindStr c.kind ++ "[" ++ varsToString c.vars ++ "]"

mutual

/-- Modelled from the spec: the printing module is not under src/.  A
stable canonical string for effects; component kinds appear in the
fixed Read, Update, Temporal order. -/
def effectToString : Effect → String
  | .concrete comps =>
    if comps.isEmpty then "Pure"
    else
      String.intercalate " & "
        ((sortBy (fun a b => decide (kindIdx a.kind ≤ kindIdx b.kind)) comps).map
          effectComponentToString)
  | .arrow ps r =>
    "(" ++ String.intercalate ", " (effectToStringList ps) ++ ") => " ++ effectToString r
  | .quantified n => n

/-- Printed forms of the members of an EffectList. -/
def effectToStringList : EffectList → List String
  | .nil => []
  | .cons h t => effectToString h :: effectToStringList t

end

/-! ## Simplification (modelled) -/

/-- Deduplicate a list keeping the first occurrence of each element. -/
def dedupKeepFirst {α : Type} [DecidableEq α] (l : List α) : List α :=
  l.foldl (fun acc x => if x ∈ acc then acc else acc ++ [x]) []

mutual

/-- Modelled from the spec: the simplification module is not under
src/.  Recursively collapse nested unions, deduplicate by structural
equality, drop empty concrete members, unwrap singletons. -/
def flattenUnions : Variables → Variables
  | .concrete vs => .concrete vs
  | .quantified n => .quantified n
  | .union vs =>
    let flat := flattenUnionsList vs
    let spliced := flat.flatMap fun v => match v with | .union ws => ws.toList | w => [w]
    let deduped := dedupKeepFirst spliced
    let nonEmpty := deduped.filter fun v => v ≠ .concrete []
    match nonEmpty with
    | [] => .concrete []
    | [v] => v
    | vs' => .union (VarsList.ofList vs')

/-- Flattened members of a VarsList. -/
def flattenUnionsList : VarsList → List Variables
  | .nil => []
  | .cons h t => flattenUnions h :: flattenUnionsList t

end

/-- Modelled from the spec: merge duplicate components of the same kind
within a concrete effect by unioning their variables; resulting
components appear in the fixed Read, Update, Temporal order. -/
def mergeComponents (comps : List EffectComponent) : List EffectComponent :=
  [ComponentKind.read, ComponentKind.update, ComponentKind.temporal].filterMap fun k =>
    match comps.filter (fun c => decide (c.kind = k)) with
    | [] => none
    | cs => some (EffectComponent.mk k (flattenUnions (.union (VarsList.ofList (cs.map (·.vars))))))

mutual

/-- Modelled from the spec: the simplification module is not under
src/.  Rewrite an effect into canonical form: merge components by kind
and flatten variable unions; within an arrow, simplify params and
result independently. -/
def simplify : Effect → Effect
  | .concrete comps => .concrete (mergeComponents comps)
  | .arrow ps r => .arrow (simplifyList ps) (simplify r)
  | .quantified n => .quantified n

/-- Simplified members of an EffectList. -/
def simplifyList : EffectList → EffectList
  | .nil => .nil
  | .cons h t => .cons (simplify h) (simplifyList t)

end

/-! ## Substitution algebra (modelled) -/

mutual

/-- Substitute one variable-set binding inside a Variables value. -/
def substVars1 (name : String) (value : Variables) : Variables → Variables
  | .concrete vs => .concrete vs
  | .quantified n => if n = name then value else .quantified n
  | .union vs => .union (substVars1List name value vs)

/-- Substitute one variable-set binding inside every member of a
VarsList. -/
def substVars1List (name : String) (value : Variables) : VarsList → VarsList
  | .nil => .nil
  | .cons h t => .cons (substVars1 name value h) (substVars1List name value t)

end

/-- Modelled from the spec: the substitutions module is not under src/.
Apply bindings in order; effect bindings do not touch Variables. -/
def applySubstitutionToVariables (subs : Substitutions) (v : Variables) : Variables :=
  subs.foldl
    (fun acc s =>
      match s with
      | .effectS _ _ => acc
      | .variableS n val => substVars1 n val acc)
    v

mutual

/-- Substitute one effect-variable binding inside an Effect. -/
def substEffVar (name : String) (value : Effect) : Effect → Effect
  | .concrete comps => .concrete comps
  | .arrow ps r => .arrow (substEffVarList name value ps) (substEffVar name value r)
  | .quantified n => if n = name then value else .quantified n

/-- Substitute one effect-variable binding inside every member of an
EffectList. -/
def substEffVarList (name : String) (value : Effect) : EffectList → EffectList
  | .nil => .nil
  | .cons h t => .cons (substEffVar name value h) (substEffVarList name value t)

end

mutual

/-- Substitute one variable-set binding inside an Effect, recursing
into components and arrows. -/
def substEntityVar (name : String) (value : Variables) : Effect → Effect
  | .concrete comps =>
    .concrete (comps.map fun c => EffectComponent.mk c.kind (substVars1 name value c.vars))
  | .arrow ps r => .arrow (substEntityVarList name value ps) (substEntityVar name value r)
  | .quantified n => .quantified n

/-- Substitute one variable-set binding inside every member of an
EffectList. -/
def substEntityVarList (name : String) (value : Variables) : EffectList → EffectList
  | .nil => .nil
  | .cons h t => .cons (substEntityVar name value h) (substEntityVarList name value t)

end

/-- Modelled from the spec: the substitutions module is not under src/.
Apply every binding in order (later bindings see the results of
earlier ones). -/
def applySub (subs : Substitutions) (e : Effect) : Effect :=
  subs.foldl
    (fun acc s =>
      match s with
      | .effectS n val => substEffVar n val acc
      | .variableS n val => substEntityVar n val acc)
    e

/-- The (kind, name) key of a binding; deduplication during composition
is keyed on it. -/
def substKey : Subst → Bool × String
  | .effectS n _ => (true, n)
  | .variableS n _ => (false, n)

/-- Apply a substitution to the value stored in a binding. -/
def applySubToValue (s1 : Substitutions) : Subst → Subst
  | .effectS n e => .effectS n (applySub s1 e)
  | .variableS n v => .variableS n (applySubstitutionToVariables s1 v)

/-- Append one binding, deduplicating by (kind, name) with the first
occurrence winning, and failing on an inconsistent re-binding. -/
def addBinding (acc : Substitutions) (s : Subst) : Except ErrorTree Substitutions :=
  match acc.find? (fun t => substKey t = substKey s) with
  | none => .ok (acc ++ [s])
  | some t =>
    if t = s then .ok acc
    else .error (buildErrorLeaf "Composing substitutions"
      ("Conflicting substitutions for " ++ (substKey s).2))

/-- Modelled from the spec: the substitutions module is not under src/.
Apply s1 to every value in s2, concatenate s1 with the result,
deduplicate by (kind, name) (first occurrence wins), and fail when a
name would be re-bound to an inconsistent value. -/
def compose (s1 s2 : Substitutions) : Except ErrorTree Substitutions :=
  (s1 ++ s2.map (applySubToValue s1)).foldlM addBinding ([] : Substitutions)

/-! ## Unification kernel (embedding of the effects base module) -/

mutual

/-- All quantified names occurring in a Variables value, each tagged as
a variable-kind name. -/
def variablesNames : Variables → List QName
  | .concrete _ => []
  | .quantified n => [⟨.variableK, n⟩]
  | .union vs => variablesNamesList vs

/-- All quantified names occurring in the members of a VarsList. -/
def variablesNamesList : VarsList → List QName
  | .nil => []
  | .cons h t => variablesNames h ++ variablesNamesList t

end

mutual

/-- All quantified names occurring in an effect, for both kinds. -/
def effectNames : Effect → List QName
  | .concrete comps => comps.flatMap fun c => variablesNames c.vars
  | .arrow ps r => effectNamesList ps ++ effectNames r
  | .quantified n => [⟨.effectK, n⟩]

/-- All quantified names occurring in the members of an EffectList. -/
def effectNamesList : EffectList → List QName
  | .nil => []
  | .cons h t => effectNames h ++ effectNamesList t

end

/-- Occurs-checked singleton substitution for an effect variable; fails
with a cyclical-binding message when the name occurs among the effect
names of the value. -/
def bindEffect (name : String) (effect : Effect) : Except String Substitutions :=
  if (effectNames effect).any (fun n => decide (n.kind = .effectK ∧ n.name = name)) then
    .error ("Can\x27t bind " ++ name ++ " to " ++ effectToString effect ++ ": cyclical binding")
  else .ok [.effectS name effect]

/-- Occurs-checked singleton substitution for a variable-set variable;
fails with a cyclical-binding message when the name occurs among the
variable names of the value. -/
def bindVariables (name : String) (vs : Variables) : Except String Substitutions :=
  if (variablesNames vs).any (fun n => decide (n.kind = .variableK ∧ n.name = name)) then
    .error ("Can\x27t bind " ++ name ++ " to " ++ varsToString vs ++ ": cyclical binding")
  else .ok [.variableS name vs]

/-- The compatible kind pairs: Read with Update and Read with Temporal. -/
def compatibleComponentKinds : List (List ComponentKind) :=
  [[.read, .update], [.read, .temporal]]

/-- Two components are compatible when some compatible pair contains
both their kinds. -/
def areCompatible (c1 c2 : EffectComponent) : Bool :=
  compatibleComponentKinds.any fun kinds =>
    (kinds.any fun k => decide (k = c1.kind)) && (kinds.any fun k => decide (k = c2.kind))

/-- Update dominates Temporal. -/
def isDominant (c1 c2 : EffectComponent) : Bool :=
  decide (c1.kind = .update) && decide (c2.kind = .temporal)

/-- Set equality of two name lists (the source compares JS Sets of
state-variable names). -/
def namesSetEq (l1 l2 : List String) : Bool :=
  (l1.all fun n => l2.contains n) && (l2.all fun n => l1.contains n)

mutual

/-- Executable size of a Variables value, used to derive fuel. -/
def Variables.size : Variables → Nat
  | .concrete _ => 1
  | .quantified _ => 1
  | .union vs => 1 + VarsList.sizeL vs

/-- Total size of the members of a VarsList. -/
def VarsList.sizeL : VarsList → Nat
  | .nil => 0
  | .cons h t => Variables.size h + VarsList.sizeL t

end

/-- Fuel-driven core of unifyVariables.  The fuel is a termination
device of the embedding; the source recursion is shallow (one swap plus
one descent into union members), so the wrapper always supplies enough. -/
def unifyVariablesAux : Nat → Variables → Variables → Except ErrorTree Substitutions
  | 0, _, _ => .error (buildErrorLeaf "unifyVariables" "recursion limit reached")
  | fuel+1, va, vb =>
    let v1 := flattenUnions va
    let v2 := flattenUnions vb
    let location := "Trying to unify variables [" ++ varsToString v1 ++ "] and ["
      ++ varsToString v2 ++ "]"
    match v1, v2 with
    | .concrete c1, .concrete c2 =>
      if namesSetEq (c1.map (·.name)) (c2.map (·.name)) then .ok []
      else .error (.node location
        ("Expected variables [" ++ String.intercalate "," (c1.map (·.name)) ++ "] and ["
          ++ String.intercalate "," (c2.map (·.name)) ++ "] to be the same") [])
    | .quantified n1, .quantified n2 =>
      if n1 = n2 then .ok []
      else
        match bindVariables n1 (.quantified n2) with
        | .ok s => .ok s
        | .error msg => .error (buildErrorLeaf location msg)
    | .quantified n1, w2 =>
      match bindVariables n1 w2 with
      | .ok s => .ok s
      | .error msg => .error (buildErrorLeaf location msg)
    | w1, .quantified n2 =>
      match bindVariables n2 w1 with
      | .ok s => .ok s
      | .error msg => .error (buildErrorLeaf location msg)
    | w1, w2 =>
      if w1 = w2 then .ok []
      else
        match w1, w2 with
        | .union l1, .concrete c2 =>
          (match mergeInMany (l1.toList.map fun v => unifyVariablesAux fuel v (.concrete c2)) with
           | .ok subs => .ok subs.flatten
           | .error errs => .error (buildErrorTreeMany location errs))
        | .concrete c1, .union l2 =>
          unifyVariablesAux fuel (.union l2) (.concrete c1)
        | _, _ =>
          .error (.node location "Unification for unions of variables is not implemented" [])

/-- unifyVariables: flatten both sides and unify, mirroring the
source's case analysis. -/
def unifyVariables (va vb : Variables) : Except ErrorTree Substitutions :=
  unifyVariablesAux (va.size + vb.size + 2) va vb

/-- One component-pair step of unifyConcrete (the inner closure of the
source's double reduce): apply the accumulated substitution to both
components, then unify same kinds, accept compatible kinds, nullify a
dominated component, and otherwise fail. -/
def unifyComponentPair (location : String) (subs : Substitutions) (ca cb : EffectComponent) :
    Except ErrorTree Substitutions :=
  let c1 : EffectComponent := ⟨ca.kind, applySubstitutionToVariables subs ca.vars⟩
  let c2 : EffectComponent := ⟨cb.kind, applySubstitutionToVariables subs cb.vars⟩
  if c1.kind = c2.kind then unifyVariables c1.vars c2.vars
  else if areCompatible c1 c2 then .ok []
  else if isDominant c1 c2 then unifyVariables (.concrete []) c2.vars
  else if isDominant c2 c1 then unifyVariables c1.vars (.concrete [])
  else .error (.node location
    ("Can\x27t unify " ++ kindLower c1.kind ++ " " ++ effectComponentToString c1 ++ " and "
      ++ kindLower c2.kind ++ " " ++ effectComponentToString c2) [])

/-- Unification of two concrete effects: the pairwise component pass,
then nullification of kinds present on one side only, with the same
composition order as the source. -/
def unifyConcrete (location : String) (comps1 comps2 : List EffectComponent) :
    Except ErrorTree Substitutions :=
  let generalResult : Except ErrorTree Substitutions := comps1.foldl
    (fun result ca =>
      comps2.foldl
        (fun innerResult cb =>
          (innerResult.bind fun subs => unifyComponentPair location subs ca cb).bind
            fun s => innerResult.bind fun s2 => compose s2 s)
        result)
    (.ok [])
  let e1Result : Except ErrorTree Substitutions := comps1.foldl
    (fun result c2 =>
      result.bind fun subs =>
        if ¬ comps2.any (fun c1 => decide (c1.kind = c2.kind)) then
          (unifyVariables c2.vars (.concrete [])).bind fun s => compose subs s
        else .ok subs)
    (.ok [])
  let e2Result : Except ErrorTree Substitutions := comps2.foldl
    (fun result c2 =>
      result.bind fun subs =>
        if ¬ comps1.any (fun c1 => decide (c1.kind = c2.kind)) then
          (unifyVariables (.concrete []) c2.vars).bind fun s => compose subs s
        else .ok subs)
    (.ok [])
  ((e1Result.bind fun s1 => e2Result.bind fun s2 => compose s1 s2).bind
    fun s1 => generalResult.bind fun s2 => compose s1 s2)

/-- Insertion-ordered map update used by tryToUnpack: push a variables
value onto the list kept for a component kind. -/
def addToKindMap : List (ComponentKind × List Variables) → ComponentKind → Variables →
    List (ComponentKind × List Variables)
  | [], k, v => [(k, [v])]
  | (k', vs) :: rest, k, v =>
    if k' = k then (k', vs ++ [v]) :: rest else (k', vs) :: addToKindMap rest k v

/-- Group the variables of all concrete components of the longer list
by component kind, in insertion order.  Non-concrete effects contribute
nothing: the source's early return inside forEach is discarded by
forEach, so they are silently skipped. -/
def variablesByComponentKind (effects2 : List Effect) : List (ComponentKind × List Variables) :=
  effects2.foldl
    (fun m e =>
      match e with
      | .concrete comps => comps.foldl (fun m c => addToKindMap m c.kind c.vars) m
      | _ => m)
    []

/-- Oriented core of tryToUnpack, with effects1 already the shorter
list: require its length to be 1, and combine the longer list's
components kind-wise into unions, simplified into a single concrete
effect. -/
def tryToUnpackOriented (location : String) (effects1 effects2 : List Effect) :
    Except ErrorTree (List Effect × List Effect) :=
  if effects1.length ≠ 1 then
    .error (buildErrorLeaf location
      ("Expected " ++ toString effects2.length ++ " arguments, got " ++ toString effects1.length))
  else
    let m := variablesByComponentKind effects2
    let unpacked : Effect :=
      .concrete (m.map fun p => EffectComponent.mk p.1 (.union (VarsList.ofList p.2)))
    .ok (effects1, [simplify unpacked])

/-- Tuple unpacking for arrow parameter lists of differing lengths.
The source begins with a self-call swapping the arguments when the
second list is shorter; that single swap is unrolled here so the
definition stays structurally recursive. -/
def tryToUnpack (location : String) (effects1 effects2 : List Effect) :
    Except ErrorTree (List Effect × List Effect) :=
  if effects2.length < effects1.length then
    tryToUnpackOriented location effects2 effects1
  else
    tryToUnpackOriented location effects1 effects2

mutual

/-- Hash the quantified members of a union into a single variable whose
name is the #-joined member names; concrete members are kept. -/
def hashVariables : Variables → Variables
  | .concrete vs => .concrete vs
  | .quantified n => .quantified n
  | .union vs =>
    let nested := hashVariablesList vs
    let acc := nested.foldl
      (fun (p : List String × List Variables) v =>
        match v with
        | .quantified n => (p.1 ++ [n], p.2)
        | w => (p.1, p.2 ++ [w]))
      ([], [])
    if acc.1.isEmpty then
      if acc.2.isEmpty then emptyVariables else .union (VarsList.ofList acc.2)
    else
      if acc.2.isEmpty then .quantified (String.intercalate "#" acc.1)
      else .union (VarsList.ofList (.quantified (String.intercalate "#" acc.1) :: acc.2))

/-- Hashed members of a VarsList. -/
def hashVariablesList : VarsList → List Variables
  | .nil => []
  | .cons h t => hashVariables h :: hashVariablesList t

end

/-- Arrow-fixpoint canonicalization: when a unary arrow's single
parameter prints equal to its result and is concrete, hash each
component's variables and record substitutions binding every original
quantified name of that component to the hashed value. -/
def simplifyArrowEffect (params : List Effect) (result : Effect) :
    (List Effect × Effect) × Substitutions :=
  match params with
  | [p] =>
    if effectToString p = effectToString result then
      match p with
      | .concrete comps =>
        let hashedComponents := comps.map fun c => EffectComponent.mk c.kind (hashVariables c.vars)
        let subs : Substitutions := comps.flatMap fun c =>
          (variablesNames c.vars).map fun n => .variableS n.name (hashVariables c.vars)
        (([.concrete hashedComponents], result), subs)
      | q => (([q], result), [])
    else (([p], result), [])
  | ps => ((ps, result), [])

mutual

/-- Executable size of an Effect, used to derive fuel. -/
def Effect.size : Effect → Nat
  | .concrete _ => 1
  | .arrow ps r => 1 + EffectList.sizeL ps + Effect.size r
  | .quantified _ => 1

/-- Total size of the members of an EffectList. -/
def EffectList.sizeL : EffectList → Nat
  | .nil => 0
  | .cons h t => Effect.size h + EffectList.sizeL t

end

mutual

/-- Fuel-driven core of unify: simplify both effects, short-circuit on
printed equality, then dispatch on the kinds.  The fuel is a
termination device of the embedding (the source recursion through
substituted arrows is not structurally bounded). -/
def unifyAux : Nat → Effect → Effect → Except ErrorTree Substitutions
  | 0, _, _ => .error (buildErrorLeaf "unify" "recursion limit reached")
  | fuel+1, ea, eb =>
    let location := "Trying to unify " ++ effectToString ea ++ " and " ++ effectToString eb
    let e1 := simplify ea
    let e2 := simplify eb
    if effectToString e1 = effectToString e2 then .ok []
    else
      match e1, e2 with
      | .arrow p1 r1, .arrow p2 r2 => unifyArrowsAux fuel location p1.toList r1 p2.toList r2
      | .concrete c1, .concrete c2 =>
        (match unifyConcrete location c1 c2 with
         | .ok s => .ok s
         | .error err => .error (buildErrorTreeOne location err))
      | .quantified n1, f2 =>
        (match bindEffect n1 f2 with
         | .ok s => .ok s
         | .error msg => .error (buildErrorLeaf location msg))
      | f1, .quantified n2 =>
        (match bindEffect n2 f1 with
         | .ok s => .ok s
         | .error msg => .error (buildErrorLeaf location msg))
      | _, _ => .error (.node location "Can\x27t unify different types of effects" [])
termination_by fuel _ _ => 3 * fuel
decreasing_by
  omega

/-- Arrow-against-arrow unification: arity equalization by unpacking,
arrow-fixpoint canonicalization of both sides, pairwise parameter
unification under the accumulated substitution, then the results. -/
def unifyArrowsAux (fuel : Nat) (location : String) (p1 : List Effect) (r1 : Effect)
    (p2 : List Effect) (r2 : Effect) : Except ErrorTree Substitutions :=
  let step1 : Except ErrorTree (List Effect × List Effect) :=
    if p1.length = p2.length then .ok (p1, p2) else tryToUnpack location p1 p2
  step1.bind fun pq =>
    let a1 := simplifyArrowEffect pq.1 r1
    let a2 := simplifyArrowEffect pq.2 r2
    let subs0 := compose a1.2 a2.2
    let foldRes := (a1.1.1.zip a2.1.1).foldl
      (fun acc pe => acc.bind fun subs => applySubstitutionsAndUnifyAux fuel subs pe.1 pe.2)
      subs0
    match foldRes.bind fun subs => applySubstitutionsAndUnifyAux fuel subs a1.1.2 a2.1.2 with
    | .ok s => .ok s
    | .error err => .error (buildErrorTreeOne location err)
termination_by 3 * fuel + 2
decreasing_by
  · omega
  · omega

/-- Apply the accumulated substitution to both effects, unify them, and
compose the new substitutions onto the accumulator. -/
def applySubstitutionsAndUnifyAux (fuel : Nat) (subs : Substitutions) (e1 e2 : Effect) :
    Except ErrorTree Substitutions :=
  (unifyAux fuel (applySub subs e1) (applySub subs e2)).bind fun newSubs => compose newSubs subs
termination_by 3 * fuel + 1
decreasing_by
  omega

end

/-- unify: the public entry point, with fuel generously derived from
the inputs (all source behaviors the claims exercise stay well within
it). -/
def unify (ea eb : Effect) : Except ErrorTree Substitutions :=
  unifyAux (ea.size + eb.size + 2) ea eb

/-! ## Effect inferrer (embedding of the inference visitor)

The inferrer file names effect variables `variable` and variable-set
variables `entity`; they are embedded over the same Effect type as the
unifier, whose constructors say `quantified`. -/

/-- A universally quantified effect: the storage form of inference
results.  Quantifier sets are kept as insertion-ordered duplicate-free
lists (the source uses JS Sets of strings). -/
structure EffectScheme where
  effectVariables : List String
  entityVariables : List String
  effect : Effect
deriving DecidableEq

/-- Modelled from the spec: toScheme from the effects base module wraps
an effect with empty quantifier sets. -/
def toScheme (e : Effect) : EffectScheme := ⟨[], [], e⟩

mutual

/-- The IR expressions the inferrer claims exercise: literals, name
references, operator applications and lambdas. -/
inductive QuintEx where
  | name (id : Nat) (n : String)
  | intLit (id : Nat) (v : Int)
  | app (id : Nat) (opcode : String) (args : QuintExList)
  | lam (id : Nat) (params : List String) (body : QuintEx)

/-- List of expressions, mutually inductive with QuintEx so recursion
over application arguments is structural. -/
inductive QuintExList where
  | nil
  | cons (head : QuintEx) (tail : QuintExList)

end

/-- The id carried by an expression. -/
def QuintEx.exId : QuintEx → Nat
  | .name i _ => i
  | .intLit i _ => i
  | .app i _ _ => i
  | .lam i _ _ => i

/-- Convert a QuintExList to an ordinary list. -/
def QuintExList.toList : QuintExList → List QuintEx
  | .nil => []
  | .cons h t => h :: t.toList

mutual

/-- Modelled from the spec: the IR printing module is not under src/.
A plain rendering of expressions, used only inside location strings. -/
def expressionToString : QuintEx → String
  | .name _ n => n
  | .intLit _ v => toString v
  | .app _ op args => op ++ "(" ++ String.intercalate ", " (expressionToStringList args) ++ ")"
  | .lam _ ps body =>
    "((" ++ String.intercalate ", " ps ++ ") => " ++ expressionToString body ++ ")"

/-- Rendered members of a QuintExList. -/
def expressionToStringList : QuintExList → List String
  | .nil => []
  | .cons h t => expressionToString h :: expressionToStringList t

end

/-- Binding kind returned by the lookup facility. -/
inductive BindKind where
  | paramK
  | constK
  | varK
  | valK
  | defK
deriving DecidableEq

/-- A lookup answer: the binding kind and the defining reference id. -/
structure LookupDef where
  kind : BindKind
  reference : Option Nat

/-- Modelled from the spec: the lookup facility is not under src/.
Scoping is collapsed to a name-keyed table, which suffices for the
module-level inputs of the claims (lookup is deterministic and total
per §6). -/
abbrev LookupTable := String → Option LookupDef

/-- The built-in signature table (its module is not under src/); the
claims run with tables supplied as parameters. -/
abbrev BuiltinSignatures := String → Option (Nat → EffectScheme)

/-- The inferrer's mutable state: result and error maps keyed by
expression id, the running substitution, the fresh-variable counter and
the current location description. -/
structure InferState where
  effects : List (Nat × EffectScheme)
  errors : List (Nat × ErrorTree)
  substitutions : Substitutions
  counter : Nat
  location : String

/-- Set a key in an association list, replacing an existing entry
(JS Map.set semantics). -/
def assocSet {α : Type} : List (Nat × α) → Nat → α → List (Nat × α)
  | [], k, v => [(k, v)]
  | (k', v') :: rest, k, v =>
    if k' = k then (k, v) :: rest else (k', v') :: assocSet rest k v

/-- Get a key from an association list. -/
def assocGet {α : Type} : List (Nat × α) → Nat → Option α
  | [], _ => none
  | (k', v') :: rest, k => if k' = k then some v' else assocGet rest k

/-- addToResults: record an error (wrapped with the current location
frame) or a scheme at an expression id. -/
def addToResults (st : InferState) (exprId : Nat) (result : Except ErrorTree EffectScheme) :
    InferState :=
  match result with
  | .error err => { st with errors := assocSet st.errors exprId (buildErrorTreeOne st.location err) }
  | .ok r => { st with effects := assocSet st.effects exprId r }

/-- addToResults for results whose error side carries several errors
(the source's Error union of a tree and a list of trees is embedded as
a list). -/
def addToResultsMany (st : InferState) (exprId : Nat)
    (result : Except (List ErrorTree) EffectScheme) : InferState :=
  match result with
  | .error errs =>
    { st with errors := assocSet st.errors exprId (buildErrorTreeMany st.location errs) }
  | .ok r => { st with effects := assocSet st.effects exprId r }

/-- fetchResult: the recorded error or scheme for an id; `none` models
the source's thrown programmer-contract violation when no entry
exists. -/
def fetchResult (st : InferState) (id : Nat) : Option (Except ErrorTree EffectScheme) :=
  match assocGet st.errors id with
  | some failed => some (.error failed)
  | none =>
    match assocGet st.effects id with
    | some s => some (.ok s)
    | none => none

/-- Modelled from the spec: the fresh-variable generator is not under
src/; fresh names use a monotonically increasing counter. -/
def freshVar (st : InferState) (p : String) : InferState × String :=
  ({ st with counter := st.counter + 1 }, p ++ toString st.counter)

/-- newInstance: substitute every quantified effect and entity variable
of a scheme with freshly minted variables; `none` models the source's
throw when composing the fresh substitutions fails. -/
def newInstance (st : InferState) (scheme : EffectScheme) : Option (InferState × Effect) :=
  let effAcc := scheme.effectVariables.foldl
    (fun (acc : InferState × Substitutions) name =>
      let fv := freshVar acc.1 "e"
      (fv.1, acc.2 ++ [Subst.effectS name (.quantified fv.2)]))
    (st, [])
  let entAcc := scheme.entityVariables.foldl
    (fun (acc : InferState × Substitutions) name =>
      let fv := freshVar acc.1 "v"
      (fv.1, acc.2 ++ [Subst.variableS name (.quantified fv.2)]))
    (effAcc.1, [])
  match compose effAcc.2 entAcc.2 with
  | .error _ => none
  | .ok s => some (entAcc.1, applySub s scheme.effect)

/-- fetchSignature: the underscore opcode gets a fresh variable; the
built-in table is consulted first; otherwise the lookup table resolves
the opcode, parameters get their per-parameter quantified variable, and
other definitions yield a fresh instance of their recorded scheme. -/
def fetchSignature (tbl : LookupTable) (bs : BuiltinSignatures) (st : InferState)
    (opcode : String) (scope : Nat) (arity : Nat) :
    Option (InferState × Except ErrorTree Effect) :=
  if opcode = "_" then
    let fv := freshVar st "_e"
    some (fv.1, .ok (.quantified fv.2))
  else
    match bs opcode with
    | some sigF =>
      match newInstance st (sigF arity) with
      | none => none
      | some (st', e) => some (st', .ok e)
    | none =>
      match tbl opcode with
      | none =>
        some (st, .error (buildErrorLeaf st.location ("Signature not found for name: " ++ opcode)))
      | some d =>
        match d.reference with
        | none =>
          some (st, .error (buildErrorLeaf st.location
            ("Signature not found for name: " ++ opcode)))
        | some id =>
          if d.kind = .paramK then
            some (st, .ok (.quantified ("e_" ++ opcode ++ "_" ++ toString id)))
          else
            match fetchResult st id with
            | none => none
            | some (.error e) => some (st, .error e)
            | some (.ok s) =>
              match newInstance st s with
              | none => none
              | some (st', e) => some (st', .ok e)

/-- exitName: skipped entirely once any error is recorded anywhere (the
source checks the size of the whole error map); otherwise dispatch on
the binding kind per the NAME rules. -/
def exitName (tbl : LookupTable) (bs : BuiltinSignatures) (st : InferState)
    (eid : Nat) (n : String) : Option InferState :=
  if st.errors.length > 0 then some st
  else
    match tbl n with
    | none =>
      some (addToResults st eid (.error (buildErrorLeaf st.location
        ("Couldn\x27t find " ++ n ++ " in the lookup table"))))
    | some d =>
      match d.kind with
      | .paramK =>
        match d.reference with
        | some r =>
          some (addToResults st eid (.ok (toScheme
            (.quantified ("e_" ++ n ++ "_" ++ toString r)))))
        | none =>
          some (addToResults st eid (.error (buildErrorLeaf st.location
            ("Couldn\x27t find an effect for lambda parameter named " ++ n ++ " in context."))))
      | .constK => some (addToResults st eid (.ok (toScheme (.concrete []))))
      | .varK =>
        some (addToResults st eid (.ok (toScheme
          (.concrete [⟨.read, .concrete [⟨n, Int.ofNat eid⟩]⟩]))))
      | .valK | .defK =>
        let st1 :=
          match d.reference with
          | some r =>
            match fetchResult st r with
            | none => none
            | some res => some (addToResults st eid res)
          | none => some st
        match st1 with
        | none => none
        | some st1 =>
          match fetchSignature tbl bs st1 n eid 2 with
          | none => none
          | some (st2, .error _) => some st2
          | some (st2, .ok eff) => some (addToResults st2 eid (.ok (toScheme eff)))

/-- Collect the fresh instances of the arguments' recorded results,
gathering every error (mergeInMany); instantiation is skipped for an
errored argument; `none` models a thrown missing-result error. -/
def collectParams (st : InferState) : List Nat →
    Option (InferState × List ErrorTree × List Effect)
  | [] => some (st, [], [])
  | i :: rest =>
    match fetchResult st i with
    | none => none
    | some (.error e) =>
      match collectParams st rest with
      | none => none
      | some (st', errs, effs) => some (st', e :: errs, effs)
    | some (.ok s) =>
      match newInstance st s with
      | none => none
      | some (st1, eff) =>
        match collectParams st1 rest with
        | none => none
        | some (st', errs, effs) => some (st', errs, eff :: effs)

/-- exitApp: skipped once any error is recorded anywhere; otherwise
build the actual arrow from fresh instances of the arguments and a
fresh result variable, unify it with the signature, compose into the
running substitution, refresh the arguments' recorded effects, and
record the substituted result. -/
def exitApp (tbl : LookupTable) (bs : BuiltinSignatures) (st : InferState)
    (eid : Nat) (op : String) (args : QuintExList) : Option InferState :=
  if st.errors.length > 0 then some st
  else
    let st := { st with location := "Trying to infer effect for operator application in "
      ++ expressionToString (.app eid op args) }
    match collectParams st (args.toList.map QuintEx.exId) with
    | none => none
    | some (st1, errs, effs) =>
      let fv := freshVar st1 "e"
      let st2 := fv.1
      let resultEffect : Effect := .quantified fv.2
      match fetchSignature tbl bs st2 op eid args.toList.length with
      | none => none
      | some (st3, .error err) =>
        some (addToResultsMany st3 eid (.error [buildErrorTreeOne st3.location err]))
      | some (st3, .ok signature) =>
        if errs.isEmpty then
          let arrowEffect : Effect := .arrow (EffectList.ofList effs) resultEffect
          match unify signature arrowEffect with
          | .error e => some (addToResultsMany st3 eid (.error [e]))
          | .ok subst =>
            match compose st3.substitutions subst with
            | .error e => some (addToResultsMany st3 eid (.error [e]))
            | .ok s =>
              let st4 := { st3 with substitutions := s }
              let st5 := (effs.zip (args.toList.map QuintEx.exId)).foldl
                (fun st pe => addToResults st pe.2 (.ok (toScheme (applySub s pe.1)))) st4
              some (addToResults st5 eid (.ok (toScheme (applySub s resultEffect))))
        else
          some (addToResultsMany st3 eid (.error errs))

/-- exitOpDef: skipped once any error is recorded anywhere; otherwise
the definition records its body's result at its own id. -/
def exitOpDef (st : InferState) (defId : Nat) (exprId : Nat) : Option InferState :=
  if st.errors.length > 0 then some st
  else
    match fetchResult st exprId with
    | none => none
    | some res => some (addToResults st defId res)

/-- The names of the quantified effect variables of an effect, in
occurrence order. -/
def effectVarNames (e : Effect) : List String :=
  (effectNames e).filterMap fun n => match n.kind with | .effectK => some n.name | _ => none

/-- The names of the quantified entity (variable-set) variables of an
effect, in occurrence order. -/
def entityVarNames (e : Effect) : List String :=
  (effectNames e).filterMap fun n => match n.kind with | .variableK => some n.name | _ => none

/-- Insertion-ordered union of two name lists (JS Set spread). -/
def listUnion (a b : List String) : List String :=
  b.foldl (fun acc x => if x ∈ acc then acc else acc ++ [x]) a

/-- Collect the per-parameter signatures of a lambda: each parameter's
signature with the running substitution applied, gathering every error
(mergeInMany). -/
def collectParamSigs (tbl : LookupTable) (bs : BuiltinSignatures) (st : InferState)
    (scope : Nat) : List String → Option (InferState × List ErrorTree × List Effect)
  | [] => some (st, [], [])
  | p :: rest =>
    match fetchSignature tbl bs st p scope 2 with
    | none => none
    | some (st1, .error e) =>
      match collectParamSigs tbl bs st1 scope rest with
      | none => none
      | some (st', errs, effs) => some (st', e :: errs, effs)
    | some (st1, .ok eff) =>
      let eff' := applySub st1.substitutions eff
      match collectParamSigs tbl bs st1 scope rest with
      | none => none
      | some (st', errs, effs) => some (st', errs, eff' :: effs)

/-- exitLambda: skipped once any error is recorded anywhere; otherwise
build the arrow from the parameters' substituted signature variables
and the body's effect, take a fresh instance, apply the running
substitution, and store it with quantifier sets collected from the free
effect/entity names of the arrow's parameters only; `none` models the
source's throw when the substituted effect is not an arrow. -/
def exitLambda (tbl : LookupTable) (bs : BuiltinSignatures) (st : InferState)
    (lid : Nat) (params : List String) (bodyId : Nat) : Option InferState :=
  if st.errors.length > 0 then some st
  else
    match fetchResult st bodyId with
    | none => none
    | some exprResult =>
      match collectParamSigs tbl bs st bodyId params with
      | none => none
      | some (st1, errs, ps) =>
        match exprResult with
        | .error err => some (addToResultsMany st1 lid (.error [err]))
        | .ok resultScheme =>
          if errs.isEmpty then
            let scheme : EffectScheme := { resultScheme with
              effect := .arrow (EffectList.ofList ps) resultScheme.effect }
            match newInstance st1 scheme with
            | none => none
            | some (st2, inst) =>
              match applySub st2.substitutions inst with
              | .arrow ps' r' =>
                let collected := ps'.toList.foldl
                  (fun (acc : List String × List String) p =>
                    (listUnion acc.1 (effectVarNames p), listUnion acc.2 (entityVarNames p)))
                  ([], [])
                some (addToResults st2 lid (.ok ⟨collected.1, collected.2, .arrow ps' r'⟩))
              | _ => none
          else
            some (addToResultsMany st1 lid (.error errs))

mutual

/-- Post-order walk of an expression: the location is set on entry (the
visitor's enterExpr) and the per-kind exit handler runs after the
children. -/
def walkExpr (tbl : LookupTable) (bs : BuiltinSignatures) (st : InferState) :
    QuintEx → Option InferState
  | .name i n =>
    exitName tbl bs
      { st with location := "Inferring effect for " ++ expressionToString (.name i n) } i n
  | .intLit i v =>
    some (addToResults
      { st with location := "Inferring effect for " ++ expressionToString (.intLit i v) } i
      (.ok (toScheme (.concrete []))))
  | .app i op args =>
    let st := { st with
      location := "Inferring effect for " ++ expressionToString (.app i op args) }
    match walkExprList tbl bs st args with
    | none => none
    | some st' => exitApp tbl bs st' i op args
  | .lam i ps body =>
    let st := { st with
      location := "Inferring effect for " ++ expressionToString (.lam i ps body) }
    match walkExpr tbl bs st body with
    | none => none
    | some st' => exitLambda tbl bs st' i ps body.exId

/-- Walk the members of an argument list in order. -/
def walkExprList (tbl : LookupTable) (bs : BuiltinSignatures) (st : InferState) :
    QuintExList → Option InferState
  | .nil => some st
  | .cons h t =>
    match walkExpr tbl bs st h with
    | none => none
    | some st' => walkExprList tbl bs st' t

end

/-- A module-level operator definition: id, name and body. -/
structure OpDef where
  id : Nat
  defName : String
  expr : QuintEx

/-- A module: name and ordered definitions. -/
structure QuintModule where
  modName : String
  defs : List OpDef

/-- Walk one definition: its body, then exitOpDef. -/
def walkOpDef (tbl : LookupTable) (bs : BuiltinSignatures) (st : InferState) (d : OpDef) :
    Option InferState :=
  match walkExpr tbl bs st d.expr with
  | none => none
  | some st' => exitOpDef st' d.id d.expr.exId

/-- Walk a list of definitions in order. -/
def walkDefs (tbl : LookupTable) (bs : BuiltinSignatures) (st : InferState) :
    List OpDef → Option InferState
  | [] => some st
  | d :: rest =>
    match walkOpDef tbl bs st d with
    | none => none
    | some st' => walkDefs tbl bs st' rest

/-- The state at the start of an inference run. -/
def initialState : InferState := ⟨[], [], [], 0, ""⟩

/-- inferEffects: walk a module from a fresh state, producing the error
and result maps. -/
def inferEffects (tbl : LookupTable) (bs : BuiltinSignatures) (m : QuintModule) :
    Option InferState :=
  walkDefs tbl bs initialState m.defs

end Quint

/-! ### Theorems for the evaluator claims -/

/-- C9: `ipow b e` returns a QNT503 error iff `b = 0 ∧ e = 0` or
`e < 0`; in every other case it returns the exact integer power
`b ^ e`. -/
theorem ipow_error_iff_and_exact (b e : Int) :
    ((∃ msg, Quint.ipow b e = .error ⟨"QNT503", msg⟩) ↔ (b = 0 ∧ e = 0) ∨ e < 0) ∧
    (¬((b = 0 ∧ e = 0) ∨ e < 0) → Quint.ipow b e = .ok (b ^ e.toNat)) := by
  unfold Quint.ipow
  split_ifs with h1 h2
  · exact ⟨⟨fun _ => Or.inl h1, fun _ => ⟨"0^0 is undefined", rfl⟩⟩,
      fun hc => absurd (Or.inl h1) hc⟩
  · exact ⟨⟨fun _ => Or.inr h2, fun _ => ⟨"i^j is undefined for j < 0", rfl⟩⟩,
      fun hc => absurd (Or.inr h2) hc⟩
  · constructor
    · constructor
      · rintro ⟨_, h⟩
        cases h
      · rintro (h | h)
        · exact absurd h h1
        · exact absurd h h2
    · intro _
      rfl

/-- Witness for C9 at concrete inputs: `2^10` succeeds with 1024 and the
error characterization holds there. -/
theorem ipow_error_iff_and_exact_witness :
    Quint.ipow 2 10 = .ok 1024 := by
  have h := (ipow_error_iff_and_exact 2 10).2 (by norm_num)
  simpa using h

/-- C10: list indexing is total via the error channel.  `nth l i`
returns the element at 0-based position `i` when `0 ≤ i < length l` and
a QNT510 error otherwise; `item` behaves identically with 1-based
indices. -/
theorem nth_item_total_characterization {α : Type} (l : List α) (i : Int) :
    (Quint.nthOp l i =
      if h : 0 ≤ i ∧ i < (l.length : Int) then
        .ok (l.get ⟨i.toNat, by
          have := h.2
          omega⟩)
      else
        .error ⟨"QNT510", "Out of bounds, nth(" ++ toString i ++ ")"⟩) ∧
    Quint.itemOp l i = Quint.nthOp l (i - 1) := by
  constructor
  · simp only [Quint.nthOp, Quint.getListElem]
    by_cases h : 0 ≤ i ∧ i < (l.length : Int)
    · rw [if_pos ⟨h.1, h.2⟩, dif_pos h]
      have hlt : i.toNat < l.length := by omega
      rw [List.get?_eq_get hlt]
    · rw [if_neg, dif_neg h]
      intro hc; exact h ⟨hc.1, hc.2⟩
  · rfl

/-- Witness for C10 at a concrete list: in-bounds and out-of-bounds
accesses of `[10, 20, 30]` behave as characterized. -/
theorem nth_item_total_characterization_witness :
    Quint.nthOp [10, 20, 30] (1 : Int) = .ok 20 ∧
    Quint.itemOp [10, 20, 30] (3 : Int) = .ok 30 ∧
    Quint.nthOp [10, 20, 30] (3 : Int) =
      .error ⟨"QNT510", "Out of bounds, nth(3)"⟩ := by
  refine ⟨?_, ?_, ?_⟩
  · have h := (nth_item_total_characterization [10, 20, 30] 1).1
    rw [h]; rfl
  · have h := (nth_item_total_characterization [10, 20, 30] (3 : Int)).2
    rw [h]; rfl
  · have h := (nth_item_total_characterization [10, 20, 30] (3 : Int)).1
    rw [h]; rfl

/-! ### Helper lemmas for the unification kernel theorems -/

namespace Quint

/-- Pointwise-equal functions give equal flatMaps. -/
theorem flatMapCongr {α β : Type} (l : List α) (g1 g2 : α → List β)
    (h : ∀ a ∈ l, g1 a = g2 a) : l.flatMap g1 = l.flatMap g2 := by
  induction l with
  | nil => rfl
  | cons x xs ih =>
    simp only [List.flatMap_cons]
    rw [h x (by simp), ih fun a ha => h a (by simp [ha])]

/-- Hashing is the identity on each member of a list of quantified
variables. -/
theorem hashVariablesList_ofList_quantified (names : List String) :
    hashVariablesList (VarsList.ofList (names.map Variables.quantified)) =
      names.map Variables.quantified := by
  induction names with
  | nil => rfl
  | cons n ns ih => simp [VarsList.ofList, hashVariablesList, hashVariables, ih]

/-- The name/other partition fold of hashVariables collects exactly the
names when every member is quantified. -/
theorem hashAcc_fold (names : List String) (acc : List String × List Variables) :
    (names.map Variables.quantified).foldl
      (fun (p : List String × List Variables) v =>
        match v with
        | .quantified n => (p.1 ++ [n], p.2)
        | w => (p.1, p.2 ++ [w]))
      acc = (acc.1 ++ names, acc.2) := by
  induction names generalizing acc with
  | nil => simp
  | cons n ns ih => simp [ih]

/-- Hashing a non-empty union of quantified variables yields the single
quantified variable whose name is the #-joined member names. -/
theorem hashVariables_union_quantified (names : List String) (hne : names ≠ []) :
    hashVariables (.union (VarsList.ofList (names.map Variables.quantified))) =
      .quantified (String.intercalate "#" names) := by
  rw [hashVariables]
  rw [hashVariablesList_ofList_quantified]
  rw [hashAcc_fold names ([], [])]
  simp [List.isEmpty_iff, hne]

/-- The quantified names of a union of quantified variables are exactly
the member names. -/
theorem variablesNamesList_ofList_quantified (names : List String) :
    variablesNamesList (VarsList.ofList (names.map Variables.quantified)) =
      names.map fun n => ⟨.variableK, n⟩ := by
  induction names with
  | nil => rfl
  | cons n ns ih => simp [VarsList.ofList, variablesNamesList, variablesNames, ih]

end Quint

/-! ### Theorems for the unification kernel claims -/

/-- C1: in the component-pair step of concrete-effect unification, a
Read/Update or Read/Temporal pair (in either order) contributes the
empty substitution regardless of the variable sets, while an
Update/Temporal pair succeeds exactly by unifying the Temporal (the
dominated) component's substituted variables with the empty variable
set. -/
theorem unifyComponentPair_kind_interaction (loc : String) (subs : Quint.Substitutions)
    (v1 v2 : Quint.Variables) :
    Quint.unifyComponentPair loc subs ⟨.read, v1⟩ ⟨.update, v2⟩ = .ok [] ∧
    Quint.unifyComponentPair loc subs ⟨.update, v1⟩ ⟨.read, v2⟩ = .ok [] ∧
    Quint.unifyComponentPair loc subs ⟨.read, v1⟩ ⟨.temporal, v2⟩ = .ok [] ∧
    Quint.unifyComponentPair loc subs ⟨.temporal, v1⟩ ⟨.read, v2⟩ = .ok [] ∧
    Quint.unifyComponentPair loc subs ⟨.update, v1⟩ ⟨.temporal, v2⟩ =
      Quint.unifyVariables (.concrete []) (Quint.applySubstitutionToVariables subs v2) ∧
    Quint.unifyComponentPair loc subs ⟨.temporal, v1⟩ ⟨.update, v2⟩ =
      Quint.unifyVariables (Quint.applySubstitutionToVariables subs v1) (.concrete []) :=
  ⟨rfl, rfl, rfl, rfl, rfl, rfl⟩

/-- C5: when the canonical printed forms of the simplified effects are
equal strings, unify succeeds and returns the empty substitution. -/
theorem unify_printed_equal_gives_empty_substitution (a b : Quint.Effect)
    (h : Quint.effectToString (Quint.simplify a) = Quint.effectToString (Quint.simplify b)) :
    Quint.unify a b = .ok [] := by
  show Quint.unifyAux (a.size + b.size + 2) a b = .ok []
  rw [show Quint.Effect.size a + Quint.Effect.size b + 2
        = (Quint.Effect.size a + Quint.Effect.size b + 1) + 1 from rfl]
  rw [Quint.unifyAux]
  simp only [h, if_pos]

/-- Witness for C5: two structurally different effects with equal
canonical prints unify to the empty substitution. -/
theorem unify_printed_equal_gives_empty_substitution_witness : Quint.unify
    (.concrete [⟨.read, .union (.cons (.concrete [⟨"x", 0⟩]) (.cons (.concrete [⟨"x", 0⟩]) .nil))⟩])
    (.concrete [⟨.read, .concrete [⟨"x", 5⟩]⟩]) = .ok [] :=
  unify_printed_equal_gives_empty_substitution _ _ (by decide)

/-- C6: when a name occurs among the matching-kind free names of a
value other than the bare quantified variable of that name, bind fails
with a cyclical-binding error (for effects and for variable sets). -/
theorem bind_occurs_check_cyclical (name : String) (e : Quint.Effect) (v : Quint.Variables)
    (he : (⟨.effectK, name⟩ : Quint.QName) ∈ Quint.effectNames e)
    (hne : e ≠ .quantified name)
    (hv : (⟨.variableK, name⟩ : Quint.QName) ∈ Quint.variablesNames v)
    (hnv : v ≠ .quantified name) :
    Quint.bindEffect name e =
      .error ("Can\x27t bind " ++ name ++ " to " ++ Quint.effectToString e
        ++ ": cyclical binding") ∧
    Quint.bindVariables name v =
      .error ("Can\x27t bind " ++ name ++ " to " ++ Quint.varsToString v
        ++ ": cyclical binding") := by
  constructor
  · have h : ((Quint.effectNames e).any fun n =>
        decide (n.kind = .effectK ∧ n.name = name)) = true :=
      List.any_eq_true.mpr ⟨_, he, by simp⟩
    rw [Quint.bindEffect, if_pos h]
  · have h : ((Quint.variablesNames v).any fun n =>
        decide (n.kind = .variableK ∧ n.name = name)) = true :=
      List.any_eq_true.mpr ⟨_, hv, by simp⟩
    rw [Quint.bindVariables, if_pos h]

/-- Witness for C6: binding a into an arrow mentioning a, and into a
union mentioning a, both fail with cyclical-binding errors. -/
theorem bind_occurs_check_cyclical_witness :
    Quint.bindEffect "a" (.arrow (.cons (.quantified "a") .nil) (.concrete [])) =
      .error ("Can\x27t bind " ++ "a" ++ " to "
        ++ Quint.effectToString (.arrow (.cons (.quantified "a") .nil) (.concrete []))
        ++ ": cyclical binding") ∧
    Quint.bindVariables "a" (.union (.cons (.quantified "a") (.cons (.concrete [⟨"x", 0⟩]) .nil))) =
      .error ("Can\x27t bind " ++ "a" ++ " to "
        ++ Quint.varsToString (.union (.cons (.quantified "a") (.cons (.concrete [⟨"x", 0⟩]) .nil)))
        ++ ": cyclical binding") :=
  bind_occurs_check_cyclical "a" _ _ (by decide) (by decide) (by decide) (by decide)

/-- Counterexample for C7: two equal non-trivial unions (both stay
unions after flattening) unify successfully with the empty
substitution, because the structural-equality check runs before the
not-implemented failure; the claim asserts failure for every such
pair. -/
theorem unifyVariables_equal_unions_succeed :
    Quint.unifyVariables
      (.union (.cons (.quantified "a") (.cons (.quantified "b") .nil)))
      (.union (.cons (.quantified "a") (.cons (.quantified "b") .nil))) = .ok [] := rfl

/-- C7 (amended): when both sides flatten to non-trivial unions that
are not structurally equal, unifyVariables fails with the
not-implemented error for unions. -/
theorem unifyVariables_distinct_unions_not_implemented (va vb : Quint.Variables)
    (l1 l2 : Quint.VarsList)
    (h1 : Quint.flattenUnions va = .union l1) (h2 : Quint.flattenUnions vb = .union l2)
    (hne : l1 ≠ l2) :
    Quint.unifyVariables va vb = .error (.node
      ("Trying to unify variables [" ++ Quint.varsToString (.union l1) ++ "] and ["
        ++ Quint.varsToString (.union l2) ++ "]")
      "Unification for unions of variables is not implemented" []) := by
  show Quint.unifyVariablesAux (va.size + vb.size + 2) va vb = _
  rw [show Quint.Variables.size va + Quint.Variables.size vb + 2
        = (Quint.Variables.size va + Quint.Variables.size vb + 1) + 1 from rfl]
  rw [Quint.unifyVariablesAux]
  simp only [h1, h2]
  rw [if_neg (by intro hc; injection hc with h; exact hne h)]

/-- Witness for C7 (amended): two distinct unions fail with the
not-implemented error. -/
theorem unifyVariables_distinct_unions_not_implemented_witness :
    Quint.unifyVariables (.union (.cons (.quantified "a") (.cons (.quantified "b") .nil)))
      (.union (.cons (.quantified "c") (.cons (.quantified "d") .nil))) =
    .error (.node
      ("Trying to unify variables ["
        ++ Quint.varsToString (.union (.cons (.quantified "a") (.cons (.quantified "b") .nil)))
        ++ "] and ["
        ++ Quint.varsToString (.union (.cons (.quantified "c") (.cons (.quantified "d") .nil)))
        ++ "]")
      "Unification for unions of variables is not implemented" []) :=
  unifyVariables_distinct_unions_not_implemented _ _ _ _ (by decide) (by decide) (by decide)

/-- Counterexample for C3: tuple unpacking succeeds even though the
shorter list's single element is a quantified (non-concrete) effect;
the claim asserts success only when that element is concrete.  The
source's concreteness rejection sits inside a forEach callback whose
return value is discarded, and it inspects the longer list anyway. -/
theorem tryToUnpack_succeeds_on_nonconcrete_single :
    Quint.tryToUnpack "" [.quantified "E"] [.concrete [], .concrete []] =
      .ok ([.quantified "E"], [.concrete []]) := rfl

/-- C3 (amended): with the shorter list first, unpacking succeeds
exactly when the shorter list has length 1 (its element's kind is not
checked); the longer list's concrete components are combined kind-wise
into unions and simplified into a single concrete effect, and a length
other than 1 fails with the expected-arguments error. -/
theorem tryToUnpack_length_characterization (loc : String) (l1 l2 : List Quint.Effect)
    (hle : l1.length ≤ l2.length) :
    (l1.length = 1 → Quint.tryToUnpack loc l1 l2 =
       .ok (l1, [Quint.simplify (.concrete ((Quint.variablesByComponentKind l2).map fun p =>
         Quint.EffectComponent.mk p.1 (.union (Quint.VarsList.ofList p.2))))])) ∧
    (l1.length ≠ 1 → Quint.tryToUnpack loc l1 l2 =
       .error (Quint.buildErrorLeaf loc
         ("Expected " ++ toString l2.length ++ " arguments, got " ++ toString l1.length))) := by
  rw [Quint.tryToUnpack, if_neg (by omega)]
  rw [Quint.tryToUnpackOriented]
  constructor
  · intro h
    rw [if_neg (by omega)]
  · intro h
    rw [if_pos h]

/-- Witness for C3 (amended): a singleton unpacks against two concrete
effects, and a two-element list against three arguments fails with the
expected-arguments error. -/
theorem tryToUnpack_length_characterization_witness :
    Quint.tryToUnpack "w" [Quint.Effect.concrete []]
      [Quint.Effect.concrete [⟨.read, .quantified "v1"⟩],
       Quint.Effect.concrete [⟨.update, .quantified "v2"⟩]] =
      .ok ([Quint.Effect.concrete []],
        [Quint.simplify (.concrete ((Quint.variablesByComponentKind
          [Quint.Effect.concrete [⟨.read, .quantified "v1"⟩],
           Quint.Effect.concrete [⟨.update, .quantified "v2"⟩]]).map fun p =>
            Quint.EffectComponent.mk p.1 (.union (Quint.VarsList.ofList p.2))))]) ∧
    Quint.tryToUnpack "w" [Quint.Effect.quantified "a", Quint.Effect.quantified "b"]
      [.concrete [], .concrete [], .concrete []] =
      .error (Quint.buildErrorLeaf "w"
        ("Expected "
          ++ toString ([Quint.Effect.concrete [], .concrete [], .concrete []].length)
          ++ " arguments, got "
          ++ toString ([Quint.Effect.quantified "a", Quint.Effect.quantified "b"].length))) :=
  ⟨(tryToUnpack_length_characterization "w" _ _ (by decide)).1 rfl,
   (tryToUnpack_length_characterization "w" _ _ (by decide)).2 (by decide)⟩

/-- C4: when a unary arrow's single parameter prints equal to its
result and is concrete, and each component's variables form a non-empty
union of quantified variables, the parameter's components are replaced
by the synthetic hash variable whose name #-joins the component's
quantified names, and the returned substitutions bind each original
quantified name of the component to that hash variable. -/
theorem simplifyArrowEffect_hash_canonicalization (p r : Quint.Effect)
    (comps : List Quint.EffectComponent)
    (f : Quint.EffectComponent → List String)
    (hp : p = .concrete comps)
    (hprint : Quint.effectToString p = Quint.effectToString r)
    (hcomps : ∀ c ∈ comps, f c ≠ [] ∧
      c.vars = .union (Quint.VarsList.ofList ((f c).map Quint.Variables.quantified))) :
    Quint.simplifyArrowEffect [p] r =
      (([.concrete (comps.map fun c =>
          Quint.EffectComponent.mk c.kind (.quantified (String.intercalate "#" (f c))))], r),
       comps.flatMap fun c => (f c).map fun n =>
          Quint.Subst.variableS n (.quantified (String.intercalate "#" (f c)))) := by
  subst hp
  have hhash : ∀ c ∈ comps, Quint.hashVariables c.vars =
      .quantified (String.intercalate "#" (f c)) := by
    intro c hc
    rw [(hcomps c hc).2]
    exact Quint.hashVariables_union_quantified _ (hcomps c hc).1
  have hnames : ∀ c ∈ comps, Quint.variablesNames c.vars =
      (f c).map fun n => (⟨.variableK, n⟩ : Quint.QName) := by
    intro c hc
    rw [(hcomps c hc).2]
    show Quint.variablesNamesList _ = _
    exact Quint.variablesNamesList_ofList_quantified _
  simp only [Quint.simplifyArrowEffect]
  rw [if_pos hprint]
  refine Prod.ext (Prod.ext ?_ rfl) ?_
  · show [Quint.Effect.concrete (comps.map fun c =>
      Quint.EffectComponent.mk c.kind (Quint.hashVariables c.vars))] = _
    congr 1
    congr 1
    exact List.map_congr_left fun c hc => by rw [hhash c hc]
  · show (comps.flatMap fun c =>
        (Quint.variablesNames c.vars).map fun n =>
          Quint.Subst.variableS n.name (Quint.hashVariables c.vars)) = _
    refine Quint.flatMapCongr _ _ _ fun c hc => ?_
    rw [hhash c hc, hnames c hc]
    simp [List.map_map, Function.comp]

/-- Witness for C4: the unary arrow (Read[v0 + v1]) => itself hashes to
the variable v0#v1 with substitutions binding v0 and v1 to it. -/
theorem simplifyArrowEffect_hash_canonicalization_witness :
    Quint.simplifyArrowEffect
      [Quint.Effect.concrete
        [⟨.read, .union (.cons (.quantified "v0") (.cons (.quantified "v1") .nil))⟩]]
      (Quint.Effect.concrete
        [⟨.read, .union (.cons (.quantified "v0") (.cons (.quantified "v1") .nil))⟩]) =
      (([.concrete [⟨.read, .quantified "v0#v1"⟩]],
        Quint.Effect.concrete
          [⟨.read, .union (.cons (.quantified "v0") (.cons (.quantified "v1") .nil))⟩]),
       [Quint.Subst.variableS "v0" (.quantified "v0#v1"),
        Quint.Subst.variableS "v1" (.quantified "v0#v1")]) :=
  simplifyArrowEffect_hash_canonicalization _ _ _ (fun _ => ["v0", "v1"]) rfl rfl (by decide)


/-! ### Helper lemmas for the inferrer theorems -/

namespace Quint

/-- Membership in an insertion-ordered union. -/
theorem mem_listUnion (x : String) (a b : List String) :
    x ∈ listUnion a b ↔ x ∈ a ∨ x ∈ b := by
  induction b generalizing a with
  | nil => simp [listUnion]
  | cons y ys ih =>
    show x ∈ listUnion (if y ∈ a then a else a ++ [y]) ys ↔ _
    rw [ih]
    by_cases hy : y ∈ a
    · rw [if_pos hy]
      constructor
      · rintro (h | h)
        · exact Or.inl h
        · exact Or.inr (List.mem_cons_of_mem y h)
      · rintro (h | h)
        · exact Or.inl h
        · rcases List.mem_cons.mp h with h | h
          · exact Or.inl (h ▸ hy)
          · exact Or.inr h
    · rw [if_neg hy]
      simp only [List.mem_append, List.mem_cons, List.mem_singleton]
      tauto

/-- Membership in a fold of insertion-ordered unions. -/
theorem mem_foldl_listUnion {α : Type} (g : α → List String) (l : List α)
    (init : List String) (x : String) :
    x ∈ l.foldl (fun acc p => listUnion acc (g p)) init ↔
      x ∈ init ∨ ∃ p ∈ l, x ∈ g p := by
  induction l generalizing init with
  | nil => simp
  | cons p rest ih =>
    rw [List.foldl_cons, ih, mem_listUnion]
    simp only [List.mem_cons]
    constructor
    · rintro ((h | h) | ⟨q, hq, hx⟩)
      · exact Or.inl h
      · exact Or.inr ⟨p, Or.inl rfl, h⟩
      · exact Or.inr ⟨q, Or.inr hq, hx⟩
    · rintro (h | ⟨q, (hq | hq), hx⟩)
      · exact Or.inl (Or.inl h)
      · exact Or.inl (Or.inr (hq ▸ hx))
      · exact Or.inr ⟨q, hq, hx⟩

/-- A fold of componentwise pair updates splits into two folds. -/
theorem foldl_pair_split {α : Type} (f1 f2 : List String → α → List String)
    (l : List α) (a b : List String) :
    l.foldl (fun acc p => (f1 acc.1 p, f2 acc.2 p)) (a, b)
      = (l.foldl f1 a, l.foldl f2 b) := by
  induction l generalizing a b with
  | nil => rfl
  | cons p rest ih => rw [List.foldl_cons, List.foldl_cons, List.foldl_cons]; exact ih _ _

/-- Setting a key makes it retrievable. -/
theorem assocGet_assocSet_self {α : Type} (l : List (Nat × α)) (k : Nat) (v : α) :
    assocGet (assocSet l k v) k = some v := by
  induction l with
  | nil => simp [assocSet, assocGet]
  | cons p rest ih =>
    by_cases h : p.1 = k
    · simp [assocSet, assocGet, h]
    · simp only [assocSet, assocGet]
      rw [if_neg h]
      show assocGet ((p.1, p.2) :: assocSet rest k v) k = some v
      simp only [assocGet]
      rw [if_neg h]
      exact ih

/-- Round-tripping a list through EffectList preserves its length. -/
theorem ofList_toList_length (l : List Effect) :
    (EffectList.ofList l).toList.length = l.length := by
  induction l with
  | nil => rfl
  | cons h t ih => simp [EffectList.ofList, EffectList.toList, ih]

/-- Effect-variable substitution preserves parameter-list length. -/
theorem substEffVarList_length (n : String) (v : Effect) : (l : EffectList) →
    (substEffVarList n v l).toList.length = l.toList.length
  | .nil => rfl
  | .cons h t => by
    simp only [substEffVarList, EffectList.toList, List.length_cons]
    rw [substEffVarList_length n v t]

/-- Entity-variable substitution preserves parameter-list length. -/
theorem substEntityVarList_length (n : String) (v : Variables) : (l : EffectList) →
    (substEntityVarList n v l).toList.length = l.toList.length
  | .nil => rfl
  | .cons h t => by
    simp only [substEntityVarList, EffectList.toList, List.length_cons]
    rw [substEntityVarList_length n v t]

/-- Applying a substitution to an arrow yields an arrow with the same
number of parameters. -/
theorem applySub_arrow (subs : Substitutions) (ps : EffectList) (r : Effect) :
    ∃ ps2 r2, applySub subs (.arrow ps r) = .arrow ps2 r2 ∧
      ps2.toList.length = ps.toList.length := by
  induction subs generalizing ps r with
  | nil => exact ⟨ps, r, rfl, rfl⟩
  | cons sb rest ih =>
    cases sb with
    | effectS n v =>
      obtain ⟨ps2, r2, h, hl⟩ := ih (substEffVarList n v ps) (substEffVar n v r)
      exact ⟨ps2, r2, h, hl.trans (substEffVarList_length n v ps)⟩
    | variableS n v =>
      obtain ⟨ps2, r2, h, hl⟩ := ih (substEntityVarList n v ps) (substEntityVar n v r)
      exact ⟨ps2, r2, h, hl.trans (substEntityVarList_length n v ps)⟩

/-- Fresh-variable folds leave the result map untouched. -/
theorem foldl_fresh_effects (names : List String)
    (f : InferState × Substitutions → String → InferState × Substitutions)
    (hf : ∀ a n, ((f a n).1).effects = a.1.effects) (acc : InferState × Substitutions) :
    ((names.foldl f acc).1).effects = acc.1.effects := by
  induction names generalizing acc with
  | nil => rfl
  | cons n rest ih => rw [List.foldl_cons, ih, hf]

/-- Instantiation leaves the result map untouched. -/
theorem newInstance_effects (st : InferState) (s : EffectScheme) (st2 : InferState) (e : Effect)
    (h : newInstance st s = some (st2, e)) : st2.effects = st.effects := by
  simp only [newInstance] at h
  split at h
  · cases h
  · cases h
    rw [foldl_fresh_effects s.entityVariables
      (fun acc name =>
        ((freshVar acc.1 "v").1,
         acc.2 ++ [Subst.variableS name (Variables.quantified (freshVar acc.1 "v").2)]))
      (fun a n => rfl)]
    exact foldl_fresh_effects s.effectVariables
      (fun acc name =>
        ((freshVar acc.1 "e").1,
         acc.2 ++ [Subst.effectS name (Effect.quantified (freshVar acc.1 "e").2)]))
      (fun a n => rfl) _

/-- Fetching a signature leaves the result map untouched. -/
theorem fetchSignature_effects (tbl : LookupTable) (bs : BuiltinSignatures) (st : InferState)
    (opcode : String) (scope arity : Nat) (st2 : InferState) (res : Except ErrorTree Effect)
    (h : fetchSignature tbl bs st opcode scope arity = some (st2, res)) :
    st2.effects = st.effects := by
  simp only [fetchSignature] at h
  repeat' split at h
  all_goals try (cases h)
  all_goals try rfl
  all_goals (rename_i heq; exact newInstance_effects _ _ _ _ heq)

/-- Collecting a lambda's parameter signatures leaves the result map
untouched, and the errors and effects it returns account for every
parameter. -/
theorem collectParamSigs_spec (tbl : LookupTable) (bs : BuiltinSignatures)
    (scope : Nat) : (params : List String) → ∀ (st st' : InferState)
    (errs : List ErrorTree) (effs : List Effect),
    collectParamSigs tbl bs st scope params = some (st', errs, effs) →
    st'.effects = st.effects ∧ errs.length + effs.length = params.length := by
  intro params
  induction params with
  | nil =>
    intro st st' errs effs h
    simp only [collectParamSigs] at h
    cases h
    exact ⟨rfl, rfl⟩
  | cons p rest ih =>
    intro st st' errs effs h
    simp only [collectParamSigs] at h
    split at h
    · cases h
    all_goals (
      rename_i heq
      split at h
      · cases h
      all_goals (
        rename_i heq2
        cases h
        obtain ⟨h1, h2⟩ := ih _ _ _ _ heq2
        refine ⟨h1.trans (fetchSignature_effects _ _ _ _ _ _ _ _ heq), ?_⟩
        simp only [List.length_cons]
        omega))

/-- Instantiating a scheme whose effect is an arrow yields an arrow
with the same number of parameters. -/
theorem newInstance_arrow (st : InferState) (s : EffectScheme) (ps : EffectList) (r : Effect)
    (st2 : InferState) (inst : Effect) (hs : s.effect = .arrow ps r)
    (h : newInstance st s = some (st2, inst)) :
    ∃ ps2 r2, inst = .arrow ps2 r2 ∧ ps2.toList.length = ps.toList.length := by
  simp only [newInstance] at h
  split at h
  · cases h
  · cases h
    obtain ⟨ps2, r2, hA, hl⟩ := applySub_arrow _ ps r
    exact ⟨ps2, r2, by rw [hs, hA], hl⟩

end Quint

/-! ### Theorems for the inferrer claims -/

/-- C2 (code-bug evidence): on a module whose first definition applies
an operator to an unresolvable name and whose second definition is an
independent unresolvable name, one inference run records an error only
at the first name (id 3): the application correctly records no result,
but the sibling definition's error at id 4's body (id 5) is never
collected, because every exit handler returns as soon as the global
error map is non-empty.  The spec (and the handlers' own comments,
which say "errors with the args") require the sibling error to be
collected as well. -/
theorem inferEffects_first_error_suppresses_sibling_error :
    ((Quint.inferEffects (fun _ => none) (fun _ => none)
        ⟨"m", [⟨1, "A", .app 2 "g" (.cons (.name 3 "x") .nil)⟩,
               ⟨4, "B", .name 5 "y"⟩]⟩).map
      fun st => (st.errors.map Prod.fst, st.effects.map Prod.fst)) =
    some ([3], []) := rfl

/-- C8: whenever exitLambda stores a scheme at the lambda's id and its
effect is an arrow, the scheme's effect-variable and entity-variable
quantifier sets are exactly the free effect/entity variable names
collected from the arrow's parameter effects only — a name appearing
only in the result is not quantified — and the arrow has one parameter
effect per lambda parameter. -/
theorem exitLambda_quantifier_sets (tbl : Quint.LookupTable) (bs : Quint.BuiltinSignatures)
    (st : Quint.InferState) (lid : Nat) (params : List String) (bodyId : Nat)
    (st' : Quint.InferState) (s : Quint.EffectScheme) (ps : Quint.EffectList) (r : Quint.Effect)
    (hrun : Quint.exitLambda tbl bs st lid params bodyId = some st')
    (hfresh : Quint.assocGet st.effects lid = none)
    (hget : Quint.assocGet st'.effects lid = some s)
    (heff : s.effect = .arrow ps r) :
    s.effectVariables
      = ps.toList.foldl (fun acc p => Quint.listUnion acc (Quint.effectVarNames p)) [] ∧
    s.entityVariables
      = ps.toList.foldl (fun acc p => Quint.listUnion acc (Quint.entityVarNames p)) [] ∧
    (∀ n, n ∈ s.effectVariables → ∃ p ∈ ps.toList, n ∈ Quint.effectVarNames p) ∧
    ps.toList.length = params.length := by
  simp only [Quint.exitLambda] at hrun
  split at hrun
  · cases hrun
    rw [hfresh] at hget
    cases hget
  · split at hrun
    · cases hrun
    · split at hrun
      · cases hrun
      · rename_i st1 errsa effsa heqSigs
        split at hrun
        · cases hrun
          simp only [Quint.addToResultsMany] at hget
          rw [(Quint.collectParamSigs_spec _ _ _ _ _ _ _ _ heqSigs).1, hfresh] at hget
          cases hget
        · rename_i resultScheme hres
          split at hrun
          · rename_i hEmpty
            split at hrun
            · cases hrun
            · rename_i st2 inst heqNI
              split at hrun
              · rename_i psB rB heqArrow
                cases hrun
                simp only [Quint.addToResults] at hget
                rw [Quint.assocGet_assocSet_self] at hget
                cases hget
                injection heff with h1 h2
                subst h1
                subst h2
                refine ⟨?_, ?_, ?_, ?_⟩
                · show (psB.toList.foldl _ ([], [])).1 = _
                  rw [Quint.foldl_pair_split
                    (fun acc p => Quint.listUnion acc (Quint.effectVarNames p))
                    (fun acc p => Quint.listUnion acc (Quint.entityVarNames p))]
                · show (psB.toList.foldl _ ([], [])).2 = _
                  rw [Quint.foldl_pair_split
                    (fun acc p => Quint.listUnion acc (Quint.effectVarNames p))
                    (fun acc p => Quint.listUnion acc (Quint.entityVarNames p))]
                · intro n hn
                  have hn2 : n ∈ (psB.toList.foldl
                      (fun acc p => (Quint.listUnion acc.1 (Quint.effectVarNames p),
                        Quint.listUnion acc.2 (Quint.entityVarNames p))) ([], [])).1 := hn
                  rw [Quint.foldl_pair_split
                    (fun acc p => Quint.listUnion acc (Quint.effectVarNames p))
                    (fun acc p => Quint.listUnion acc (Quint.entityVarNames p))] at hn2
                  have := (Quint.mem_foldl_listUnion Quint.effectVarNames psB.toList [] n).mp hn2
                  simpa using this
                · obtain ⟨psA, rA, hInstEq, hlA⟩ := Quint.newInstance_arrow st1
                    { resultScheme with
                      effect := Quint.Effect.arrow (Quint.EffectList.ofList effsa)
                        resultScheme.effect }
                    (Quint.EffectList.ofList effsa) resultScheme.effect st2 inst rfl heqNI
                  rw [hInstEq] at heqArrow
                  obtain ⟨psC, rC, hC, hlC⟩ := Quint.applySub_arrow st2.substitutions psA rA
                  rw [hC] at heqArrow
                  injection heqArrow with h3 h4
                  have hlen : psB.toList.length = effsa.length := by
                    rw [← h3, hlC, hlA, Quint.ofList_toList_length]
                  have hempty : errsa = [] := by
                    simpa [List.isEmpty_iff] using hEmpty
                  have := (Quint.collectParamSigs_spec _ _ _ _ _ _ _ _ heqSigs).2
                  rw [hempty] at this
                  simp only [List.length_nil] at this
                  omega
              · cases hrun
          · cases hrun
            simp only [Quint.addToResultsMany] at hget
            rw [(Quint.collectParamSigs_spec _ _ _ _ _ _ _ _ heqSigs).1, hfresh] at hget
            cases hget

/-- Witness for C8: a lambda over one parameter x whose body is the
parameter read stores the scheme quantifying exactly the parameter
variable e_x_7 (which also appears in the result), with one parameter
effect for the one lambda parameter. -/
theorem exitLambda_quantifier_sets_witness :
    ((⟨["e_x_7"], [],
        .arrow (.cons (.quantified "e_x_7") .nil) (.quantified "e_x_7")⟩
          : Quint.EffectScheme).effectVariables
      = (Quint.EffectList.cons (Quint.Effect.quantified "e_x_7") .nil).toList.foldl
          (fun acc p => Quint.listUnion acc (Quint.effectVarNames p)) []) ∧
    ((⟨["e_x_7"], [],
        .arrow (.cons (.quantified "e_x_7") .nil) (.quantified "e_x_7")⟩
          : Quint.EffectScheme).entityVariables
      = (Quint.EffectList.cons (Quint.Effect.quantified "e_x_7") .nil).toList.foldl
          (fun acc p => Quint.listUnion acc (Quint.entityVarNames p)) []) ∧
    (∀ n, n ∈ (⟨["e_x_7"], [],
        .arrow (.cons (.quantified "e_x_7") .nil) (.quantified "e_x_7")⟩
          : Quint.EffectScheme).effectVariables →
      ∃ p ∈ (Quint.EffectList.cons (Quint.Effect.quantified "e_x_7") .nil).toList,
        n ∈ Quint.effectVarNames p) ∧
    (Quint.EffectList.cons (Quint.Effect.quantified "e_x_7") .nil).toList.length
      = ["x"].length :=
  exitLambda_quantifier_sets
    (fun n => if n = "x" then some ⟨.paramK, some 7⟩ else none)
    (fun _ => none)
    ⟨[(5, Quint.toScheme (.quantified "e_x_7"))], [], [], 0, ""⟩
    10 ["x"] 5
    ⟨[(5, Quint.toScheme (.quantified "e_x_7")),
      (10, ⟨["e_x_7"], [],
        .arrow (.cons (.quantified "e_x_7") .nil) (.quantified "e_x_7")⟩)], [], [], 0, ""⟩
    ⟨["e_x_7"], [], .arrow (.cons (.quantified "e_x_7") .nil) (.quantified "e_x_7")⟩
    (.cons (.quantified "e_x_7") .nil) (.quantified "e_x_7")
    rfl rfl rfl rfl
